import Mathlib

/-!
Verification development for the ThinkOS-Client backend.

Shallow embedding of the parts of the backend relevant to the checked
properties: hybrid vector+keyword search with Reciprocal Rank Fusion
(`app/db/search.py`), keyword extraction (`app/services/query_processing.py`),
dynamic distance filtering (`app/services/embeddings/filtering.py`), memory
and link CRUD (`app/db/crud/memories.py`, `app/db/crud/links.py`) and the
reembed background worker (`app/services/jobs.py`).

Database tables are modelled as lists of rows, SQL float arithmetic as `ℚ`,
NULLable columns as `Option`, and fallible operations as `Except`.
Logging and the exact error-message strings are omitted.
-/

namespace ThinkOS

/-! ## Hybrid search — `app/db/search.py` -/

/-- One row of the `memories` table as consumed by the search SQL: its
primary key, and — when `embedding IS NOT NULL` — the cosine distance
`vec_distance_cosine(embedding, :query)` of its embedding to the (fixed)
query vector.  `none` models a NULL embedding; since the SQL only ever
tests the embedding for NULL and takes its distance to the one query
vector, the pair (presence, distance) is a faithful projection. -/
structure SearchRow where
  id : Nat
  dist : Option ℚ
deriving DecidableEq, Repr

/-- The `match_type` column of the search result. -/
inductive MatchKind where
  | vector
  | keyword
  | hybrid
deriving DecidableEq, Repr

/-- One row of the search result set:
`{id, distance, rrf_score, match_type}` (payload columns `title`, `content`,
`url`, `summary`, `type`, `created_at` are copied through unchanged by the
SQL and are omitted from the model). -/
structure SearchHit where
  id : Nat
  distance : ℚ
  rrf_score : ℚ
  match_type : MatchKind
deriving DecidableEq, Repr

/-- Pair every list element with its rank, counting from `k`
(models `ROW_NUMBER()`, which is 1-based). -/
def withRanks {α : Type} (k : Nat) : List α → List (α × Nat)
  | [] => []
  | x :: xs => (x, k) :: withRanks (k + 1) xs

/-- The `vector_results` CTE: rows with a non-NULL embedding, ordered by
distance ascending, truncated to `search_limit`, each with its 1-based
`vec_rank`.  Elements are `((id, distance), vec_rank)`. -/
def vector_results (table : List SearchRow) (search_limit : Nat) :
    List ((Nat × ℚ) × Nat) :=
  withRanks 1
    (((table.filterMap fun r => r.dist.map fun d => (r.id, d)).insertionSort
      fun a b => a.2 ≤ b.2).take search_limit)

/-- The `fts_results` CTE: the ids matched by `memories_fts MATCH :fts_query`
in bm25 order (`fts_matches` is an input of the model — bm25 and the FTS
index are opaque), joined back to the `memories` table on `rowid = id`,
truncated to `search_limit`, each with its 1-based `fts_rank`. -/
def fts_results (table : List SearchRow) (fts_matches : List Nat)
    (search_limit : Nat) : List (SearchRow × Nat) :=
  withRanks 1
    ((fts_matches.filterMap fun i => table.find? fun r => decide (r.id = i)).take
      search_limit)

/-- The `combined` CTE: the three `UNION ALL` branches — vector-only rows,
FTS-only rows (distance recomputed, `1.0` when the embedding is NULL), and
intersection rows with the summed RRF score (`k = 60`). -/
def combined (vec : List ((Nat × ℚ) × Nat)) (fts : List (SearchRow × Nat)) :
    List SearchHit :=
  (vec.filter fun v => ! fts.any fun f => decide (f.1.id = v.1.1)).map
      (fun v => ⟨v.1.1, v.1.2, 1 / (60 + (v.2 : ℚ)), .vector⟩)
  ++ (fts.filter fun f => ! vec.any fun v => decide (v.1.1 = f.1.id)).map
      (fun f => ⟨f.1.id, f.1.dist.getD 1, 1 / (60 + (f.2 : ℚ)), .keyword⟩)
  ++ vec.filterMap fun v =>
      (fts.find? fun f => decide (f.1.id = v.1.1)).map fun f =>
        ⟨v.1.1, v.1.2, 1 / (60 + (v.2 : ℚ)) + 1 / (60 + (f.2 : ℚ)), .hybrid⟩

/-- Models `ORDER BY rrf_score DESC`. -/
def scoreDesc (a b : SearchHit) : Prop := b.rrf_score ≤ a.rrf_score

instance : DecidableRel scoreDesc := fun a b =>
  inferInstanceAs (Decidable (b.rrf_score ≤ a.rrf_score))

instance : IsTotal SearchHit scoreDesc :=
  ⟨fun a b => le_total b.rrf_score a.rrf_score⟩

instance : IsTrans SearchHit scoreDesc :=
  ⟨fun _ _ _ h1 h2 => le_trans h2 h1⟩

/-- The hybrid branch of `search_similar_memories`: the RRF SQL statement
run with `search_limit = limit * 3`, ordered by `rrf_score` descending and
truncated to `limit` rows. -/
def hybrid_search (table : List SearchRow) (fts_matches : List Nat)
    (limit : Nat) : List SearchHit :=
  ((combined (vector_results table (limit * 3))
      (fts_results table fts_matches (limit * 3))).insertionSort scoreDesc).take
    limit

/-- The vector-only fallback query of `search_similar_memories`: rows with a
non-NULL embedding ordered by distance ascending, with synthetic
`rrf_score = 1/(60+ROW_NUMBER())` and `match_type = 'vector'`, truncated to
`limit`. -/
def vector_search (table : List SearchRow) (limit : Nat) : List SearchHit :=
  ((withRanks 1
      ((table.filterMap fun r => r.dist.map fun d => (r.id, d)).insertionSort
        fun a b => a.2 ≤ b.2)).map fun v =>
    (⟨v.1.1, v.1.2, 1 / (60 + (v.2 : ℚ)), .vector⟩ : SearchHit)).take limit

/-- Python truthiness of an optional string (`None` and `""` are falsy). -/
def truthyStr : Option String → Bool
  | some s => s ≠ ""
  | none => false

/-- Function `search_similar_memories`: uses the hybrid RRF query when a (truthy)
keyword query is supplied and the `memories_fts` table exists; on any
exception from the hybrid SQL (modelled by the `hybrid_raises` input) or when
hybrid is not available it runs the vector-only fallback query. -/
def search_similar_memories (table : List SearchRow) (fts_matches : List Nat)
    (limit : Nat) (keyword_query : Option String) (fts_exists : Bool)
    (hybrid_raises : Bool) : List SearchHit :=
  if truthyStr keyword_query && fts_exists && !hybrid_raises then
    hybrid_search table fts_matches limit
  else
    vector_search table limit

/-- Spec-side definition (written from the specification's words, for the
refinement claim): "rows with non-null embeddings ordered by ascending cosine
distance, each carrying synthetic `rrf_score = 1/(60+rank)` (1-based rank)
and `match_type = "vector"`, truncated to `limit` rows". -/
def pure_vector_search_spec (table : List SearchRow) (limit : Nat) :
    List SearchHit :=
  let rows :=
    (table.filterMap fun r => r.dist.map fun d => (r.id, d)).insertionSort
      fun a b => a.2 ≤ b.2
  ((rows.zip (List.range' 1 rows.length)).map fun v =>
    (⟨v.1.1, v.1.2, 1 / (60 + (v.2 : ℚ)), .vector⟩ : SearchHit)).take limit

/-- The per-row scoring property claimed for the hybrid search: a returned
row is scored `1/(60+vec_rank)` as `vector` when only in the vector list,
`1/(60+fts_rank)` as `keyword` when only in the FTS list (distance `1.0`
exactly when that row's embedding is NULL), and the sum as `hybrid` when in
both. -/
def hybridRowClaim (vec : List ((Nat × ℚ) × Nat)) (fts : List (SearchRow × Nat))
    (h : SearchHit) : Prop :=
  (∃ v ∈ vec, v.1.1 = h.id ∧ (∀ f ∈ fts, f.1.id ≠ h.id) ∧
    h.rrf_score = 1 / (60 + (v.2 : ℚ)) ∧ h.match_type = .vector ∧
    h.distance = v.1.2)
  ∨ (∃ f ∈ fts, f.1.id = h.id ∧ (∀ v ∈ vec, v.1.1 ≠ h.id) ∧
    h.rrf_score = 1 / (60 + (f.2 : ℚ)) ∧ h.match_type = .keyword ∧
    h.distance = f.1.dist.getD 1)
  ∨ (∃ v ∈ vec, ∃ f ∈ fts, v.1.1 = h.id ∧ f.1.id = h.id ∧
    h.rrf_score = 1 / (60 + (v.2 : ℚ)) + 1 / (60 + (f.2 : ℚ)) ∧
    h.match_type = .hybrid ∧ h.distance = v.1.2)

/-! ## Keyword extraction — `app/services/query_processing.py` -/

/-- Whitespace in the sense of Python `str.split()`. -/
def isPySpace (c : Char) : Bool :=
  c = ' ' || c = '\t' || c = '\n' || c = '\r' || c = '\x0b' || c = '\x0c'

/-- Characters matched by the regex class `\w` (ASCII reading: letters,
digits, underscore). -/
def isWordChar (c : Char) : Bool := c.isAlphanum || c = '_'

/-- Models `re.sub(r'[^\w\s]', ' ', query.lower())`: lowercase the query,
then replace every character that is neither a word character nor whitespace
by a single space. -/
def cleanedQuery (q : List Char) : List Char :=
  (q.map Char.toLower).map fun c => if isWordChar c || isPySpace c then c else ' '

/-- Helper for `splitWs`; `acc` is the current word, reversed. -/
def splitWsAux : List Char → List Char → List (List Char)
  | [], acc => if acc.isEmpty then [] else [acc.reverse]
  | c :: rest, acc =>
    if isPySpace c then
      if acc.isEmpty then splitWsAux rest []
      else acc.reverse :: splitWsAux rest []
    else splitWsAux rest (c :: acc)

/-- Python `str.split()` with no argument: split on runs of whitespace,
producing no empty words. -/
def splitWs (s : List Char) : List (List Char) := splitWsAux s []

/-- Words of the cleaned, lowercased query (`cleaned.split()`). -/
def pyWords (q : List Char) : List (List Char) := splitWs (cleanedQuery q)

/-- Stop-word set of `extract_keywords`. -/
def stop_words : List String :=
  ["what", "did", "do", "does", "i", "have", "save", "saved", "about",
   "the", "a", "an", "is", "are", "was", "were", "my", "me", "show",
   "find", "search", "for", "on", "in", "to", "of", "and", "or", "how",
   "where", "when", "why", "can", "could", "would", "should", "tell",
   "anything", "something", "everything", "any", "some", "get", "look",
   "remind", "read", "see", "that", "this", "with", "from", "it", "be"]

/-- Keyword list computed by `extract_keywords`: words that are not stop
words and are longer than 2 characters; when that list is empty, fall back
to all words longer than 2 characters. -/
def keywordList (q : List Char) : List (List Char) :=
  let words := pyWords q
  let keywords := words.filter fun w =>
    !stop_words.contains (String.mk w) && decide (2 < w.length)
  if keywords.isEmpty then words.filter fun w => decide (2 < w.length)
  else keywords

/-- Models `' OR '.join`. -/
def joinOR (ws : List (List Char)) : List Char :=
  List.intercalate (" OR ".data) ws

/-- Function `extract_keywords`: the keywords joined with `' OR '`, or the
original query string unchanged when no keywords survive. -/
def extract_keywords (q : List Char) : List Char :=
  let kws := keywordList q
  if kws.isEmpty then q else joinOR kws

/-! ## Dynamic distance filtering — `app/services/embeddings/filtering.py` -/

/-- Model-specific cosine distance thresholds. -/
structure Thresholds where
  excellent : ℚ
  good : ℚ
  cutoff : ℚ
deriving DecidableEq, Repr

/-- Dictionary `MODEL_THRESHOLDS`. -/
def MODEL_THRESHOLDS (m : String) : Option Thresholds :=
  if m = "ollama:mxbai-embed-large" then some ⟨25/100, 35/100, 45/100⟩
  else if m = "ollama:snowflake-arctic-embed" then some ⟨25/100, 35/100, 45/100⟩
  else if m = "openai:text-embedding-3-small" then some ⟨40/100, 50/100, 60/100⟩
  else if m = "openai:text-embedding-3-large" then some ⟨28/100, 38/100, 48/100⟩
  else none

/-- Constant `DEFAULT_THRESHOLDS`. -/
def DEFAULT_THRESHOLDS : Thresholds := ⟨25/100, 35/100, 45/100⟩

/-- Models `MODEL_THRESHOLDS.get(embedding_model, DEFAULT_THRESHOLDS) if
embedding_model else DEFAULT_THRESHOLDS` (an empty model string is falsy). -/
def thresholdsFor : Option String → Thresholds
  | some m =>
    if m = "" then DEFAULT_THRESHOLDS
    else (MODEL_THRESHOLDS m).getD DEFAULT_THRESHOLDS
  | none => DEFAULT_THRESHOLDS

/-- Sort key `m.get("distance") or 999` — Python `or` yields `999` both for a
missing/None distance and for a distance equal to `0.0` (falsy float). -/
def sortKey999 (m : SearchRow) : ℚ :=
  match m.dist with
  | none => 999
  | some d => if d = 0 then 999 else d

/-- Function `filter_memories_dynamically` (the `max_results` parameter of
the source is reassigned in every branch before use and is therefore not an
input of the model).  Candidates are `SearchRow`s: id plus optional
distance. -/
def filter_memories_dynamically (memories : List SearchRow)
    (embedding_model : Option String) : List SearchRow :=
  if memories.isEmpty then []
  else
    let thresholds := thresholdsFor embedding_model
    let sorted_memories :=
      memories.insertionSort fun a b => sortKey999 a ≤ sortKey999 b
    match sorted_memories.head?.bind (fun m => m.dist) with
    | none => []
    | some best_distance =>
      if thresholds.cutoff ≤ best_distance then []
      else
        let tp : ℚ × Nat :=
          if best_distance < thresholds.excellent then (best_distance + 8/100, 5)
          else if best_distance < thresholds.good then (best_distance + 6/100, 3)
          else (best_distance + 4/100, 2)
        (sorted_memories.filter fun m =>
          match m.dist with
          | none => false
          | some d => decide (d ≤ tp.1)).take tp.2

/-! ## Memory CRUD — `app/db/crud/memories.py` -/

/-- One row of the `memories` table, restricted to the columns the checked
claims read or write.  `embedding` is kept as the float list itself
(`serialize_embedding` packs it to bytes bijectively); `processing_attempts`
is `Option` because the column was added by a migration and may be NULL on
legacy rows (the queries test `IS NULL` explicitly). -/
structure MemoryRow where
  id : Nat
  title : String
  content : String
  embedding_summary : Option String
  embedding : Option (List ℚ)
  embedding_model : Option String
  processing_attempts : Option Nat
deriving DecidableEq, Repr

/-- Python truthiness of the optional embedding argument (`None` and the
empty list are falsy). -/
def truthyEmb : Option (List ℚ) → Bool
  | some l => !l.isEmpty
  | none => false

/-- Function `create_memory`, restricted to the modelled columns:
`embedding=serialize_embedding(embedding) if embedding else None` and
`embedding_model=embedding_model if embedding else None`; the ORM defaults
give `processing_attempts = 0`. -/
def create_memory (id : Nat) (title content : String)
    (embedding : Option (List ℚ)) (embedding_model : Option String) :
    MemoryRow :=
  { id := id
    title := title
    content := content
    embedding_summary := none
    embedding := if truthyEmb embedding then embedding else none
    embedding_model := if truthyEmb embedding then embedding_model else none
    processing_attempts := some 0 }

/-- Function `update_memory` on an existing row: always overwrites title and
content; when the embedding argument is truthy it overwrites both
`embedding` and `embedding_model` (the latter with the argument as given,
even `None`). -/
def update_memory (m : MemoryRow) (title content : String)
    (embedding : Option (List ℚ)) (embedding_model : Option String) :
    MemoryRow :=
  let m := { m with title := title, content := content }
  if truthyEmb embedding then
    { m with embedding := embedding, embedding_model := embedding_model }
  else m

/-- Function `update_memory_embedding` on an existing row: always overwrites
`embedding` (the argument is not optional in the source), and overwrites
`embedding_model` only when that argument is truthy (a non-empty string). -/
def update_memory_embedding (m : MemoryRow) (embedding : List ℚ)
    (embedding_model : Option String) : MemoryRow :=
  { m with
    embedding := some embedding
    embedding_model :=
      if truthyStr embedding_model then embedding_model else m.embedding_model }

/-- Predicate `processing_attempts < 3 OR processing_attempts IS NULL` under
SQL three-valued logic (`NULL < 3` is not true). -/
def attemptsBelow3 (m : MemoryRow) : Bool :=
  match m.processing_attempts with
  | some a => decide (a < 3)
  | none => true

/-- Function `get_memories_without_embedding_summary`: rows with NULL
`embedding_summary` and fewer than 3 (or NULL) processing attempts, truncated
to `limit`.  The model returns the selected rows; the source projects each to
an `{id, title, content}` dict. -/
def get_memories_without_embedding_summary (table : List MemoryRow)
    (limit : Nat) : List MemoryRow :=
  (table.filter fun m =>
    m.embedding_summary.isNone && attemptsBelow3 m).take limit

/-- Function `get_memories_needing_reembedding`: rows with a non-NULL
`embedding_summary` whose embedding is NULL, or non-NULL with an
`embedding_model` that differs from `current_model` or is NULL; truncated to
`limit`.  The model returns the selected rows; the source projects each to an
`{id, title, content, embedding_summary}` dict. -/
def get_memories_needing_reembedding (table : List MemoryRow)
    (current_model : String) (limit : Nat) : List MemoryRow :=
  (table.filter fun m =>
    m.embedding_summary.isSome &&
      (m.embedding.isNone ||
        (m.embedding.isSome &&
          ((match m.embedding_model with
            | some em => decide (em ≠ current_model)
            | none => false) ||
           m.embedding_model.isNone)))).take limit

/-- Invariant claimed for memory rows: `embedding` is present iff
`embedding_model` is present. -/
def memInvariant (m : MemoryRow) : Prop :=
  m.embedding.isSome ↔ m.embedding_model.isSome

instance (m : MemoryRow) : Decidable (memInvariant m) := by
  unfold memInvariant; infer_instance

/-! ## Link CRUD — `app/db/crud/links.py` -/

/-- One row of the link table (`id` and `created_at` omitted: no checked
claim reads them). -/
structure LinkRow where
  source_memory_id : Nat
  target_memory_id : Nat
  link_type : String
  relevance_score : Option ℚ
deriving DecidableEq, Repr

/-- State of the link table, as a list of stored rows. -/
abbrev LinkState := List LinkRow

/-- Row with source and target swapped and the same type and score
(the `link_backward` constructed by the source). -/
def linkRev (r : LinkRow) : LinkRow :=
  ⟨r.target_memory_id, r.source_memory_id, r.link_type, r.relevance_score⟩

/-- Predicate of the "existing link (either direction)" query: a row
`source→target` or `target→source`. -/
def eitherDir (s t : Nat) (r : LinkRow) : Bool :=
  (decide (r.source_memory_id = s) && decide (r.target_memory_id = t)) ||
  (decide (r.source_memory_id = t) && decide (r.target_memory_id = s))

/-- HTTP errors raised by the link CRUD. -/
inductive LinkError where
  | notFound
  | selfLink
  | conflict
  | badScore
deriving DecidableEq, Repr

/-- HTTP status code of each error. -/
def LinkError.status : LinkError → Nat
  | .notFound => 404
  | .selfLink => 400
  | .conflict => 409
  | .badScore => 400

/-- Function `create_link`.  `mems` is the set of existing memory ids (the
model of `session.get(Memory, ·)`).  Checks, in source order: both memories
exist (404), no self-link (400), no existing row in either direction (409),
relevance score in range when given (400); then inserts the forward and
backward rows in one transaction. -/
def create_link (mems : List Nat) (source_id target_id : Nat)
    (link_type : String) (relevance_score : Option ℚ) (st : LinkState) :
    Except LinkError LinkState :=
  if !mems.contains source_id || !mems.contains target_id then
    .error .notFound
  else if source_id = target_id then
    .error .selfLink
  else if st.any (eitherDir source_id target_id) then
    .error .conflict
  else if (match relevance_score with
           | some v => !(decide (0 ≤ v) && decide (v ≤ 1))
           | none => false) then
    .error .badScore
  else
    let fwd : LinkRow := ⟨source_id, target_id, link_type, relevance_score⟩
    .ok (st ++ [fwd, linkRev fwd])

/-- Function `delete_link`: finds all rows in either direction; 404 when
there are none, otherwise deletes them all. -/
def delete_link (source_id target_id : Nat) (st : LinkState) :
    Except LinkError LinkState :=
  if (st.filter (eitherDir source_id target_id)).isEmpty then
    .error .notFound
  else
    .ok (st.filter fun r => !eitherDir source_id target_id r)

/-- Result of `batch_create_links` (the source also accumulates the error
message strings; the model keeps their count). -/
structure BatchReport where
  state : LinkState
  created : Nat
  failed : Nat
deriving Repr

/-- Loop body of `batch_create_links`.  Per pair, in source order: skip if a
row exists in either direction (the session query sees rows added for
earlier pairs via autoflush), skip if the source memory does not exist, skip
if the target memory does not exist; otherwise add the two directed rows
with `link_type="auto"` and the pair's confidence.  There is no self-link
check. -/
def batch_create_links_go (mems : List Nat) :
    List (Nat × Nat × ℚ) → LinkState → Nat → Nat → BatchReport
  | [], st, created, failed => ⟨st, created, failed⟩
  | (source_id, target_id, confidence) :: rest, st, created, failed =>
    if st.any (eitherDir source_id target_id) then
      batch_create_links_go mems rest st created (failed + 1)
    else if !mems.contains source_id then
      batch_create_links_go mems rest st created (failed + 1)
    else if !mems.contains target_id then
      batch_create_links_go mems rest st created (failed + 1)
    else
      let link1 : LinkRow := ⟨source_id, target_id, "auto", some confidence⟩
      batch_create_links_go mems rest (st ++ [link1, linkRev link1])
        (created + 1) failed

/-- Function `batch_create_links`. -/
def batch_create_links (mems : List Nat) (pairs : List (Nat × Nat × ℚ))
    (st : LinkState) : BatchReport :=
  batch_create_links_go mems pairs st 0 0

/-- Link-table invariant of the claim: every stored row `A→B` has exactly
one stored mirror row `B→A` with the same link type and score, and no row is
a self-link. -/
def linkInv (st : LinkState) : Prop :=
  (∀ r ∈ st, r.source_memory_id ≠ r.target_memory_id) ∧
  (∀ r ∈ st, st.count (linkRev r) = 1)

instance (st : LinkState) : Decidable (linkInv st) := by
  unfold linkInv; infer_instance

/-- One link-table operation, with the memory table contents (`mems`) at the
time of the call as part of the operation. -/
inductive LinkOp where
  | create (mems : List Nat) (source_id target_id : Nat) (link_type : String)
      (relevance_score : Option ℚ)
  | delete (source_id target_id : Nat)
  | batch (mems : List Nat) (pairs : List (Nat × Nat × ℚ))

/-- Effect of an operation on the stored state; a raised `HTTPException`
leaves the table unchanged (the transaction commits only on success). -/
def applyLinkOp (st : LinkState) : LinkOp → LinkState
  | .create mems s t lt sc =>
    match create_link mems s t lt sc st with
    | .ok st' => st'
    | .error _ => st
  | .delete s t =>
    match delete_link s t st with
    | .ok st' => st'
    | .error _ => st
  | .batch mems pairs => (batch_create_links mems pairs st).state

/-- Restriction under which the amended claim holds: batch operations must
not contain a self-pair.  (`create_link` rejects self-links itself.) -/
def noSelfPairs : LinkOp → Prop
  | .batch _ pairs => ∀ p ∈ pairs, p.1 ≠ p.2.1
  | _ => True

/-! ## Reembed worker — `app/services/jobs.py` -/

/-- Job status values (`JobStatus`). -/
inductive JStatus where
  | pending
  | running
  | completed
  | failed
  | cancelled
deriving DecidableEq, Repr

/-- Outcome of one batch iteration of a worker phase: how many memories the
fetch returned and how many of them were processed resp. failed (every
fetched memory increments exactly one of the two counters). -/
structure BatchOutcome where
  fetched : Nat
  processed : Nat
  failed : Nat
deriving DecidableEq, Repr

/-- Stored job record fields the worker writes. -/
structure JobRec where
  status : JStatus
  progress : Nat
  processed : Nat
  failed : Nat
  total : Nat
deriving DecidableEq, Repr

/-- Environment of one `reembed_worker` run: the total work count, the
boundary index (counted over both phases) from which the stored job status
reads `cancelled` (a cooperative cancel request issued by the cancel
endpoint), and the successive non-empty batch fetches of each phase (the
fetch after the last listed one returns no memories). -/
structure WorkerEnv where
  total : Nat
  cancel_from : Option Nat
  phase1 : List BatchOutcome
  phase2 : List BatchOutcome
deriving Repr

/-- Job status the worker observes at the `k`-th batch boundary. -/
def observed_status (cancel_from : Option Nat) (k : Nat) : JStatus :=
  match cancel_from with
  | some c => if c ≤ k then .cancelled else .running
  | none => .running

/-- Result of one phase loop. -/
structure PhaseResult where
  processed : Nat
  failed : Nat
  nextBoundary : Nat
  sawCancelled : Bool
deriving DecidableEq, Repr

/-- One phase loop of the worker: at each iteration it re-reads the job and
breaks when the status is `cancelled`; otherwise it fetches a batch, breaks
when the fetch is empty, accumulates the batch counters, and breaks (after
accumulating) when the whole batch failed. -/
def phase_loop (cancel_from : Option Nat) :
    List BatchOutcome → Nat → Nat → Nat → PhaseResult
  | batches, k, processed, failed =>
    if observed_status cancel_from k = .cancelled then
      ⟨processed, failed, k + 1, true⟩
    else
      match batches with
      | [] => ⟨processed, failed, k + 1, false⟩
      | b :: rest =>
        if b.processed = 0 && decide (b.failed = b.fetched) then
          ⟨processed + b.processed, failed + b.failed, k + 1, false⟩
        else
          phase_loop cancel_from rest (k + 1) (processed + b.processed)
            (failed + b.failed)

/-- Function `reembed_worker` (no-exception runs).  After `mark_started` it
counts the work; zero work is marked completed immediately.  Otherwise it
runs phase 1 and phase 2 and then unconditionally calls
`job_manager.mark_completed` (status `completed`, progress 100).  Returns
the job record as finally stored, and whether a `cancelled` status was
observed at some batch boundary. -/
def reembed_worker (env : WorkerEnv) : JobRec × Bool :=
  if env.total = 0 then (⟨.completed, 100, 0, 0, 0⟩, false)
  else
    let r1 := phase_loop env.cancel_from env.phase1 0 0 0
    let r2 := phase_loop env.cancel_from env.phase2 r1.nextBoundary
      r1.processed r1.failed
    (⟨.completed, 100, r2.processed, r2.failed, env.total⟩,
      r1.sawCancelled || r2.sawCancelled)

/-! ## Theorems -/

/-- C4, code_bug evaluation: a run of the reembed worker with one pending
memory whose job is cancelled before the first batch-boundary check observes
the `cancelled` status (second component `true`), yet the job record it
finally stores has status `completed` — the worker `break`s out of each phase
loop but then unconditionally calls `mark_completed`, so a job observed
cancelled does not remain cancelled. -/
theorem cancelled_job_overwritten_completed :
    (reembed_worker ⟨1, some 0, [⟨1, 1, 0⟩], []⟩).2 = true ∧
    (reembed_worker ⟨1, some 0, [⟨1, 1, 0⟩], []⟩).1.status = JStatus.completed :=
  ⟨rfl, rfl⟩

/-- C5, code_bug evaluation: on candidates with distances `0.0` and `0.3`
(default thresholds), the sort key `m.get("distance") or 999` treats the
distance `0.0` as missing, so the `0.0` row is sorted last, the best distance
becomes `0.3` (good tier, `+0.06`, cap 3) and the function returns both rows
with the `0.3` row first — not, as claimed, exactly the rows within
`0.0 + 0.08` in ascending distance order (which would be `[row 1]` only). -/
theorem zero_distance_filter_misranks :
    filter_memories_dynamically [⟨1, some 0⟩, ⟨2, some (3/10)⟩] none =
      [⟨2, some (3/10)⟩, ⟨1, some 0⟩] := by with_unfolding_all decide

/-- C2, counterexample: the empty link table satisfies the invariant, but a
`batch_create_links` call with the self-pair `(1, 1, 0.5)` (memory 1 exists,
no prior links) inserts two `1→1` rows — `batch_create_links` has no
self-link check — so the resulting state violates the invariant. -/
theorem batch_self_link_breaks_invariant :
    linkInv ([] : LinkState) ∧
      ¬ linkInv (applyLinkOp [] (.batch [1] [(1, 1, 1/2)])) := by
  constructor
  · decide
  · decide

/-- C3, counterexample: a memory with `embedding_summary` set, no embedding
and `processing_attempts = 3` is returned by
`get_memories_needing_reembedding` — that query applies no
`processing_attempts` filter, contrary to the claim. -/
theorem reembedding_query_ignores_attempts :
    ¬ (∀ m ∈ get_memories_needing_reembedding
        [⟨7, "t", "c", some "s", none, none, some 3⟩] "m" 10,
        attemptsBelow3 m = true) := by decide

/-- C8, counterexample: `create_memory` called with a non-empty embedding and
`embedding_model = None` stores the embedding but no model, violating the
claimed invariant "embedding present iff embedding_model present". -/
theorem create_memory_breaks_embedding_invariant :
    ¬ memInvariant (create_memory 1 "t" "c" (some [1]) none) := by decide

/-- C3, amended: every memory returned by
`get_memories_without_embedding_summary` has `processing_attempts` strictly
below 3 or unset; the re-embedding query applies no such filter (see the
counterexample). -/
theorem summary_query_excludes_exhausted (table : List MemoryRow)
    (limit : Nat) :
    ∀ m ∈ get_memories_without_embedding_summary table limit,
      attemptsBelow3 m = true := by
  intro m hm
  unfold get_memories_without_embedding_summary at hm
  have h2 := (List.mem_filter.1 (List.mem_of_mem_take hm)).2
  simp only [Bool.and_eq_true] at h2
  exact h2.2

/-- Witness for C3's amended theorem at a concrete table. -/
theorem summary_query_excludes_exhausted_witness :
    attemptsBelow3 ⟨1, "t", "c", none, none, none, some 0⟩ = true :=
  summary_query_excludes_exhausted [⟨1, "t", "c", none, none, none, some 0⟩] 5
    ⟨1, "t", "c", none, none, none, some 0⟩ (by decide)

/-- C8, amended: the invariant "embedding present iff embedding_model
present" holds after `create_memory` and is preserved by `update_memory`
provided every call that supplies a truthy (non-empty) embedding also
supplies a non-null `embedding_model`; and it is preserved by
`update_memory_embedding` provided the call supplies a truthy (non-empty)
`embedding_model` or the row already has one.  (Without these provisos the
claim fails, see the counterexample.) -/
theorem embedding_model_invariant_preserved :
    (∀ i t c e em, (truthyEmb e = true → (em : Option String).isSome = true) →
      memInvariant (create_memory i t c e em))
    ∧ (∀ m t c e em, memInvariant m →
      (truthyEmb e = true → (em : Option String).isSome = true) →
      memInvariant (update_memory m t c e em))
    ∧ (∀ m e em, memInvariant m →
      (truthyStr em = true ∨ m.embedding_model.isSome = true) →
      memInvariant (update_memory_embedding m e em)) := by
  refine ⟨?_, ?_, ?_⟩
  · intro i t c e em he
    unfold create_memory memInvariant
    by_cases h : truthyEmb e = true
    · cases e with
      | none => simp [truthyEmb] at h
      | some l => simp [h, he h]
    · have h' : truthyEmb e = false := by
        revert h; cases truthyEmb e <;> simp
      simp [h']
  · intro m t c e em hm he
    unfold update_memory memInvariant
    by_cases h : truthyEmb e = true
    · cases e with
      | none => simp [truthyEmb] at h
      | some l => simp [h, he h]
    · have h' : truthyEmb e = false := by
        revert h; cases truthyEmb e <;> simp
      unfold memInvariant at hm
      simp [h']
      exact Bool.eq_iff_iff.mpr hm
  · intro m e em hm hor
    unfold update_memory_embedding memInvariant
    by_cases h : truthyStr em = true
    · cases em with
      | none => simp [truthyStr] at h
      | some s => simp [h]
    · have h' : truthyStr em = false := by
        revert h; cases truthyStr em <;> simp
      rcases hor with hl | hr
      · rw [hl] at h'; cases h'
      · simp [h', hr]

/-- Witness for C8's amended theorem at concrete calls. -/
theorem embedding_model_invariant_preserved_witness :
    memInvariant (create_memory 1 "t" "c" (some [1]) (some "m")) ∧
    memInvariant (update_memory ⟨1, "t", "c", none, none, none, some 0⟩
      "t2" "c2" (some [2]) (some "m2")) ∧
    memInvariant (update_memory_embedding
      ⟨1, "t", "c", none, some [1], some "m", some 0⟩ [3] (some "m3")) :=
  ⟨embedding_model_invariant_preserved.1 1 "t" "c" (some [1]) (some "m")
      (fun _ => rfl),
   embedding_model_invariant_preserved.2.1 _ "t2" "c2" (some [2]) (some "m2")
      (by decide) (fun _ => rfl),
   embedding_model_invariant_preserved.2.2 _ [3] (some "m3") (by decide)
      (Or.inl rfl)⟩

/-- C9: `create_link` validates memory existence before the self-link rule:
for an id with no memory, `create_link(id, id)` fails with NotFound (404),
and the 400 self-link rejection occurs exactly when the memory exists. -/
theorem create_link_checks_existence_first (mems : List Nat) (i : Nat)
    (lt : String) (sc : Option ℚ) (st : LinkState) :
    LinkError.notFound.status = 404 ∧ LinkError.selfLink.status = 400 ∧
    (i ∉ mems → create_link mems i i lt sc st = .error .notFound) ∧
    (i ∈ mems → create_link mems i i lt sc st = .error .selfLink) := by
  refine ⟨rfl, rfl, ?_, ?_⟩
  · intro h
    unfold create_link
    simp [h]
  · intro h
    unfold create_link
    simp [h]

/-- Witness for C9 at a concrete id and empty resp. populated memory
table. -/
theorem create_link_checks_existence_first_witness :
    create_link [] 1 1 "manual" none [] = .error .notFound ∧
    create_link [1] 1 1 "manual" none [] = .error .selfLink :=
  ⟨(create_link_checks_existence_first [] 1 "manual" none []).2.2.1
      (by decide),
   (create_link_checks_existence_first [1] 1 "manual" none []).2.2.2
      (by decide)⟩

/-- C10: when no token of the cleaned, lowercased query is longer than 2
characters, `extract_keywords` returns the original query string verbatim;
otherwise it returns the ' OR '-join of a non-empty keyword list every
element of which is longer than 2 characters. -/
theorem extract_keywords_short_tokens (q : List Char) :
    ((∀ w ∈ pyWords q, w.length ≤ 2) → extract_keywords q = q)
    ∧ ((∃ w ∈ pyWords q, 2 < w.length) →
      extract_keywords q = joinOR (keywordList q) ∧ keywordList q ≠ [] ∧
      ∀ w ∈ keywordList q, 2 < w.length) := by
  constructor
  · intro hshort
    have hk : keywordList q = [] := by
      unfold keywordList
      have h2 : (pyWords q).filter (fun w => decide (2 < w.length)) = [] := by
        rw [List.filter_eq_nil_iff]
        intro w hw
        simpa using Nat.not_lt.2 (hshort w hw)
      have h1 : (pyWords q).filter (fun w =>
          !stop_words.contains (String.mk w) && decide (2 < w.length)) = [] := by
        rw [List.filter_eq_nil_iff]
        intro w hw
        simp [Nat.not_lt.2 (hshort w hw)]
      simp only [h1, h2]
      rfl
    unfold extract_keywords
    simp [hk]
  · rintro ⟨w, hw, hlen⟩
    have hmem_len : ∀ w' ∈ keywordList q, 2 < w'.length := by
      intro w' hw'
      simp only [keywordList] at hw'
      split at hw'
      · simpa using (List.mem_filter.1 hw').2
      · have := (List.mem_filter.1 hw').2
        simp only [Bool.and_eq_true] at this
        simpa using this.2
    have hne : keywordList q ≠ [] := by
      simp only [keywordList]
      split
      · exact List.ne_nil_of_mem
          (List.mem_filter.2 ⟨hw, by simpa using hlen⟩)
      · intro hnil
        rename_i hE
        rw [List.filter_eq_nil_iff] at hnil
        simp only [List.isEmpty_iff, List.filter_eq_nil_iff] at hE
        push_neg at hE
        obtain ⟨x, hx, hpred⟩ := hE
        exact hnil x hx hpred
    refine ⟨?_, hne, hmem_len⟩
    unfold extract_keywords
    have hf : (keywordList q).isEmpty = false := by
      simp [List.isEmpty_iff, hne]
    simp [hf]

/-- Witness for C10: a query whose tokens are all short is returned verbatim
(stop word, punctuation and all), and a query with long tokens is turned
into an ' OR '-joined keyword list. -/
theorem extract_keywords_short_tokens_witness :
    extract_keywords ("an ox!".data) = "an ox!".data ∧
    (extract_keywords ("What did I save about React hooks?".data) =
        joinOR (keywordList ("What did I save about React hooks?".data)) ∧
      keywordList ("What did I save about React hooks?".data) ≠ [] ∧
      ∀ w ∈ keywordList ("What did I save about React hooks?".data),
        2 < w.length) :=
  ⟨(extract_keywords_short_tokens ("an ox!".data)).1 (by decide),
   (extract_keywords_short_tokens
      ("What did I save about React hooks?".data)).2 (by decide)⟩

/-- Helper: explicit ranking agrees with zipping against a range. -/
theorem withRanks_eq_zip {α : Type} (k : Nat) (l : List α) :
    withRanks k l = l.zip (List.range' k l.length) := by
  induction l generalizing k with
  | nil => rfl
  | cons x xs ih =>
    show (x, k) :: withRanks (k + 1) xs =
      (x :: xs).zip (k :: List.range' (k + 1) xs.length)
    rw [List.zip_cons_cons, ih]

/-- C7: with no FTS table, or no keyword query, or a failing hybrid SQL
statement, `search_similar_memories` returns exactly the pure vector search
of the specification: non-null-embedding rows by ascending cosine distance,
synthetic `rrf_score = 1/(60+rank)`, `match_type = "vector"`, truncated to
`limit`. -/
theorem search_fallback_is_pure_vector (table : List SearchRow)
    (fts_matches : List Nat) (limit : Nat) (keyword_query : Option String)
    (fts_exists hybrid_raises : Bool)
    (h : fts_exists = false ∨ keyword_query = none ∨ hybrid_raises = true) :
    search_similar_memories table fts_matches limit keyword_query fts_exists
      hybrid_raises = pure_vector_search_spec table limit := by
  have hv : vector_search table limit = pure_vector_search_spec table limit := by
    unfold vector_search pure_vector_search_spec
    rw [withRanks_eq_zip]
  have hcond : (truthyStr keyword_query && fts_exists && !hybrid_raises) = false := by
    rcases h with rfl | rfl | rfl <;> simp [truthyStr]
  unfold search_similar_memories
  rw [hcond]
  simpa using hv

/-- Witness for C7 at a concrete table, with an absent keyword query. -/
theorem search_fallback_is_pure_vector_witness :
    search_similar_memories [⟨1, some 1⟩, ⟨2, none⟩] [2] 3 none true false =
      pure_vector_search_spec [⟨1, some 1⟩, ⟨2, none⟩] 3 :=
  search_fallback_is_pure_vector [⟨1, some 1⟩, ⟨2, none⟩] [2] 3 none true false
    (Or.inr (Or.inl rfl))

/-- C6: for distinct existing memories `a` and `b` with no prior link row in
either direction (and an in-range score argument), the first `create_link`
call succeeds and appends exactly the rows `a→b` and `b→a`; calling
`create_link` again on the resulting state — in either argument order —
fails with Conflict (409).  Errors raise before any insert, so the failing
call leaves the two rows of the first call as the only rows between `a` and
`b`. -/
theorem create_link_twice_conflict (mems : List Nat) (a b : Nat)
    (lt : String) (sc : Option ℚ) (st : LinkState)
    (hab : a ≠ b) (ha : a ∈ mems) (hb : b ∈ mems)
    (hsc : ∀ v, sc = some v → 0 ≤ v ∧ v ≤ 1)
    (hno : ∀ r ∈ st, eitherDir a b r = false) :
    create_link mems a b lt sc st =
      .ok (st ++ [⟨a, b, lt, sc⟩, ⟨b, a, lt, sc⟩]) ∧
    create_link mems a b lt sc (st ++ [⟨a, b, lt, sc⟩, ⟨b, a, lt, sc⟩]) =
      .error .conflict ∧
    create_link mems b a lt sc (st ++ [⟨a, b, lt, sc⟩, ⟨b, a, lt, sc⟩]) =
      .error .conflict ∧
    LinkError.conflict.status = 409 := by
  have hmemf : (⟨a, b, lt, sc⟩ : LinkRow) ∈
      st ++ [⟨a, b, lt, sc⟩, ⟨b, a, lt, sc⟩] :=
    List.mem_append_right _ (List.mem_cons_self _ _)
  have hpab : eitherDir a b (⟨a, b, lt, sc⟩ : LinkRow) = true := by
    simp [eitherDir]
  have hpba : eitherDir b a (⟨a, b, lt, sc⟩ : LinkRow) = true := by
    simp [eitherDir]
  have hany2ab : (st ++ ([⟨a, b, lt, sc⟩, ⟨b, a, lt, sc⟩] : LinkState)).any
      (eitherDir a b) = true := List.any_eq_true.mpr ⟨_, hmemf, hpab⟩
  have hany2ba : (st ++ ([⟨a, b, lt, sc⟩, ⟨b, a, lt, sc⟩] : LinkState)).any
      (eitherDir b a) = true := List.any_eq_true.mpr ⟨_, hmemf, hpba⟩
  have hcont : ¬((!mems.contains a || !mems.contains b) = true) := by
    simp [ha, hb]
  have hcont' : ¬((!mems.contains b || !mems.contains a) = true) := by
    simp [ha, hb]
  have hany1 : ¬(st.any (eitherDir a b) = true) := by
    have hf : st.any (eitherDir a b) = false :=
      List.any_eq_false.mpr fun r hr => by simp [hno r hr]
    simp [hf]
  refine ⟨?_, ?_, ?_, rfl⟩
  · unfold create_link
    rw [if_neg hcont, if_neg hab, if_neg hany1]
    rcases sc with _ | v
    · rfl
    · have hv := hsc v rfl
      simp [hv.1, hv.2, linkRev]
  · unfold create_link
    rw [if_neg hcont, if_neg hab, if_pos hany2ab]
  · unfold create_link
    rw [if_neg hcont', if_neg (Ne.symm hab), if_pos hany2ba]

/-- Witness for C6 at concrete memories 1 and 2 and the empty link table. -/
theorem create_link_twice_conflict_witness :
    create_link [1, 2] 1 2 "manual" none [] =
      .ok [⟨1, 2, "manual", none⟩, ⟨2, 1, "manual", none⟩] ∧
    create_link [1, 2] 1 2 "manual" none
      [⟨1, 2, "manual", none⟩, ⟨2, 1, "manual", none⟩] = .error .conflict ∧
    create_link [1, 2] 2 1 "manual" none
      [⟨1, 2, "manual", none⟩, ⟨2, 1, "manual", none⟩] = .error .conflict ∧
    LinkError.conflict.status = 409 :=
  create_link_twice_conflict [1, 2] 1 2 "manual" none [] (by decide)
    (by decide) (by decide) (fun v hv => by cases hv) (fun r hr => by cases hr)

/-- Helper: reversing a link row twice is the identity. -/
theorem linkRev_linkRev (r : LinkRow) : linkRev (linkRev r) = r := rfl

/-- Helper: `eitherDir` is insensitive to reversing the row. -/
theorem eitherDir_linkRev (s t : Nat) (r : LinkRow) :
    eitherDir s t (linkRev r) = eitherDir s t r := by
  simp [eitherDir, linkRev, Bool.or_comm, Bool.and_comm]

/-- Helper: appending a fresh forward/backward pair (distinct endpoints, no
prior row in either direction) preserves the link invariant. -/
theorem addPair_linkInv (st : LinkState) (s t : Nat) (lt : String)
    (sc : Option ℚ) (hst : s ≠ t)
    (hno : ∀ r ∈ st, eitherDir s t r = false) (hinv : linkInv st) :
    linkInv (st ++ [⟨s, t, lt, sc⟩, linkRev ⟨s, t, lt, sc⟩]) := by
  have hfwd_notin : (⟨s, t, lt, sc⟩ : LinkRow) ∉ st := fun hmem => by
    simpa [eitherDir] using hno _ hmem
  have hbwd_notin : linkRev ⟨s, t, lt, sc⟩ ∉ st := fun hmem => by
    simpa [eitherDir, linkRev] using hno _ hmem
  have hfb : (⟨s, t, lt, sc⟩ : LinkRow) ≠ linkRev ⟨s, t, lt, sc⟩ := fun h =>
    hst (congrArg LinkRow.source_memory_id h)
  constructor
  · intro r hr
    rcases List.mem_append.1 hr with h | h
    · exact hinv.1 r h
    · simp only [List.mem_cons, List.not_mem_nil, or_false] at h
      rcases h with rfl | rfl
      · exact hst
      · exact Ne.symm hst
  · intro r hr
    rcases List.mem_append.1 hr with h | h
    · have h1 : st.count (linkRev r) = 1 := hinv.2 r h
      have h0 : List.count (linkRev r)
          [⟨s, t, lt, sc⟩, linkRev ⟨s, t, lt, sc⟩] = 0 := by
        rw [List.count_eq_zero]
        intro hmem
        simp only [List.mem_cons, List.not_mem_nil, or_false] at hmem
        rcases hmem with hm | hm
        · have hr2 : r = linkRev (⟨s, t, lt, sc⟩ : LinkRow) := by
            rw [← linkRev_linkRev r, hm]
          rw [hr2] at h
          simpa [eitherDir, linkRev] using hno _ h
        · have hr2 : r = (⟨s, t, lt, sc⟩ : LinkRow) := by
            rw [← linkRev_linkRev r, hm, linkRev_linkRev]
          rw [hr2] at h
          simpa [eitherDir] using hno _ h
      rw [List.count_append, h1, h0]
    · simp only [List.mem_cons, List.not_mem_nil, or_false] at h
      rcases h with rfl | rfl
      · have h0 : st.count (linkRev (⟨s, t, lt, sc⟩ : LinkRow)) = 0 :=
          List.count_eq_zero.mpr hbwd_notin
        have h2 : List.count (linkRev (⟨s, t, lt, sc⟩ : LinkRow))
            [⟨s, t, lt, sc⟩, linkRev ⟨s, t, lt, sc⟩] = 1 := by
          rw [List.count_cons_of_ne (Ne.symm hfb), List.count_singleton]
          simp
        rw [List.count_append, h0, h2]
      · have h0 : st.count (linkRev (linkRev (⟨s, t, lt, sc⟩ : LinkRow))) = 0 := by
          rw [linkRev_linkRev]
          exact List.count_eq_zero.mpr hfwd_notin
        have hz : List.count (⟨s, t, lt, sc⟩ : LinkRow)
            [linkRev ⟨s, t, lt, sc⟩] = 0 :=
          List.count_eq_zero.mpr (by simpa using hfb)
        have h2 : List.count (linkRev (linkRev (⟨s, t, lt, sc⟩ : LinkRow)))
            [⟨s, t, lt, sc⟩, linkRev ⟨s, t, lt, sc⟩] = 1 := by
          rw [linkRev_linkRev, List.count_cons_self, hz]
        rw [List.count_append, h0, h2]

/-- Helper: a successful `create_link` preserves the link invariant. -/
theorem create_link_ok_linkInv {mems : List Nat} {s t : Nat} {lt : String}
    {sc : Option ℚ} {st st' : LinkState} (hinv : linkInv st)
    (h : create_link mems s t lt sc st = .ok st') : linkInv st' := by
  unfold create_link at h
  split at h
  · exact Except.noConfusion h
  split at h
  · exact Except.noConfusion h
  split at h
  · exact Except.noConfusion h
  split at h
  · exact Except.noConfusion h
  cases h
  rename_i h1 h2 h3 h4
  refine addPair_linkInv st s t lt sc h2 ?_ hinv
  intro r hr
  have hfalse : st.any (eitherDir s t) = false := by simpa using h3
  simpa using List.any_eq_false.1 hfalse r hr

/-- Helper: deleting all rows between two endpoints preserves the link
invariant. -/
theorem delete_filter_linkInv (s t : Nat) (st : LinkState)
    (hinv : linkInv st) :
    linkInv (st.filter fun r => !eitherDir s t r) := by
  constructor
  · intro r hr
    exact hinv.1 r (List.mem_filter.1 hr).1
  · intro r hr
    obtain ⟨hrs, hrp⟩ := List.mem_filter.1 hr
    have hkeep : (!eitherDir s t (linkRev r)) = true := by
      rw [eitherDir_linkRev]
      exact hrp
    rw [@List.count_filter _ _ _ (fun r => !eitherDir s t r) (linkRev r) st
      hkeep]
    exact hinv.2 r hrs

/-- Helper: a successful `delete_link` preserves the link invariant. -/
theorem delete_link_ok_linkInv {s t : Nat} {st st' : LinkState}
    (hinv : linkInv st) (h : delete_link s t st = .ok st') : linkInv st' := by
  unfold delete_link at h
  split at h
  · exact Except.noConfusion h
  cases h
  exact delete_filter_linkInv s t st hinv

/-- Helper: the `batch_create_links` loop preserves the link invariant when
no pair is a self-pair. -/
theorem batch_go_linkInv (mems : List Nat) :
    ∀ (pairs : List (Nat × Nat × ℚ)) (st : LinkState) (c f : Nat),
      linkInv st → (∀ p ∈ pairs, p.1 ≠ p.2.1) →
      linkInv (batch_create_links_go mems pairs st c f).state := by
  intro pairs
  induction pairs with
  | nil =>
    intro st c f hinv _
    exact hinv
  | cons p rest ih =>
    intro st c f hinv hgood
    obtain ⟨s, t, conf⟩ := p
    have hrest : ∀ q ∈ rest, q.1 ≠ q.2.1 :=
      fun q hq => hgood q (List.mem_cons_of_mem _ hq)
    unfold batch_create_links_go
    split
    · exact ih st c (f + 1) hinv hrest
    split
    · exact ih st c (f + 1) hinv hrest
    split
    · exact ih st c (f + 1) hinv hrest
    rename_i h1 h2 h3
    refine ih _ (c + 1) f ?_ hrest
    refine addPair_linkInv st s t "auto" (some conf)
      (hgood (s, t, conf) (List.mem_cons_self _ _)) ?_ hinv
    intro r hr
    have hfalse : st.any (eitherDir s t) = false := by simpa using h1
    simpa using List.any_eq_false.1 hfalse r hr

instance : (op : LinkOp) → Decidable (noSelfPairs op)
  | .create _ _ _ _ _ => .isTrue trivial
  | .delete _ _ => .isTrue trivial
  | .batch _ pairs => inferInstanceAs (Decidable (∀ p ∈ pairs, p.1 ≠ p.2.1))

/-- C2, amended: starting from a table satisfying it, every sequence of
`create_link`, `delete_link` and `batch_create_links` operations preserves
the invariant — provided every batch operation's pair list contains no
self-pair.  (Without that proviso the claim fails: `batch_create_links` has
no self-link check, see the counterexample.) -/
theorem link_ops_preserve_invariant (ops : List LinkOp) (st : LinkState)
    (hinv : linkInv st) (hgood : ∀ op ∈ ops, noSelfPairs op) :
    linkInv (ops.foldl applyLinkOp st) := by
  induction ops generalizing st with
  | nil => exact hinv
  | cons op rest ih =>
    have h1 : linkInv (applyLinkOp st op) := by
      cases op with
      | create mems s t lt sc =>
        simp only [applyLinkOp]
        cases hc : create_link mems s t lt sc st with
        | ok st' => exact create_link_ok_linkInv hinv hc
        | error e => exact hinv
      | delete s t =>
        simp only [applyLinkOp]
        cases hc : delete_link s t st with
        | ok st' => exact delete_link_ok_linkInv hinv hc
        | error e => exact hinv
      | batch mems pairs =>
        exact batch_go_linkInv mems pairs st 0 0 hinv
          (hgood (.batch mems pairs) (List.mem_cons_self _ _))
    exact ih (applyLinkOp st op) h1
      fun o ho => hgood o (List.mem_cons_of_mem _ ho)

/-- Witness for C2's amended theorem: a concrete sequence — a manual link,
an auto batch without self-pairs, a delete — applied to the empty table
keeps the invariant. -/
theorem link_ops_preserve_invariant_witness :
    linkInv (List.foldl applyLinkOp []
      [LinkOp.create [1, 2] 1 2 "manual" none,
       LinkOp.batch [1, 2, 3] [(1, 3, 1/2)],
       LinkOp.delete 1 2]) :=
  link_ops_preserve_invariant _ _ (by decide) (by decide)

/-- C1: every row returned by the hybrid search is scored per RRF —
`1/(60+vec_rank)` with match type `vector` when only in the vector top-3·limit,
`1/(60+fts_rank)` with match type `keyword` when only in the FTS result list
(its distance `1.0` exactly when the row has no embedding), and the sum with
match type `hybrid` when in both — and the returned list is ordered by
`rrf_score` descending with at most `limit` rows. -/
theorem hybrid_search_rrf_fusion (table : List SearchRow)
    (fts_matches : List Nat) (limit : Nat) :
    (∀ h ∈ hybrid_search table fts_matches limit,
      hybridRowClaim (vector_results table (limit * 3))
        (fts_results table fts_matches (limit * 3)) h)
    ∧ List.Sorted scoreDesc (hybrid_search table fts_matches limit)
    ∧ (hybrid_search table fts_matches limit).length ≤ limit := by
  refine ⟨?_, ?_, ?_⟩
  · intro h hmem
    have h1 : h ∈ (combined (vector_results table (limit * 3))
        (fts_results table fts_matches (limit * 3))).insertionSort scoreDesc :=
      List.mem_of_mem_take hmem
    have hc : h ∈ combined (vector_results table (limit * 3))
        (fts_results table fts_matches (limit * 3)) :=
      (List.perm_insertionSort scoreDesc _).mem_iff.1 h1
    unfold combined at hc
    rcases List.mem_append.1 hc with hAB | hC
    · rcases List.mem_append.1 hAB with hA | hB
      · rcases List.mem_map.1 hA with ⟨v, hv, rfl⟩
        obtain ⟨hvmem, hvcond⟩ := List.mem_filter.1 hv
        left
        refine ⟨v, hvmem, rfl, ?_, rfl, rfl, rfl⟩
        intro f hf heq
        have hvf : ∀ (a : SearchRow) (b : Nat),
            (a, b) ∈ fts_results table fts_matches (limit * 3) →
            ¬ a.id = v.1.1 := by simpa using hvcond
        exact hvf f.1 f.2 hf heq
      · rcases List.mem_map.1 hB with ⟨f, hf, rfl⟩
        obtain ⟨hfmem, hfcond⟩ := List.mem_filter.1 hf
        right; left
        refine ⟨f, hfmem, rfl, ?_, rfl, rfl, rfl⟩
        intro v hv heq
        have hff : ∀ (a : Nat) (b : ℚ) (c : Nat),
            ((a, b), c) ∈ vector_results table (limit * 3) →
            ¬ a = f.1.id := by simpa using hfcond
        exact hff v.1.1 v.1.2 v.2 hv heq
    · rcases List.mem_filterMap.1 hC with ⟨v, hv, hopt⟩
      rcases Option.map_eq_some'.1 hopt with ⟨f, hfind, rfl⟩
      have hfmem := List.mem_of_find?_eq_some hfind
      have hpred := List.find?_some hfind
      simp only [decide_eq_true_eq] at hpred
      right; right
      exact ⟨v, hv, f, hfmem, rfl, hpred, rfl, rfl, rfl⟩
  · exact (List.sorted_insertionSort scoreDesc _).sublist
      (List.take_sublist _ _)
  · exact List.length_take_le _ _

/-- Witness for C1 at a concrete one-row table with no FTS matches: the
single returned hit is scored as a vector-only row, and the result length is
within the limit. -/
theorem hybrid_search_rrf_fusion_witness :
    hybridRowClaim (vector_results [⟨1, some 1⟩] (1 * 3))
      (fts_results [⟨1, some 1⟩] [] (1 * 3))
      ⟨1, 1, 1 / 61, .vector⟩
    ∧ (hybrid_search [⟨1, some 1⟩] [] 1).length ≤ 1 :=
  ⟨(hybrid_search_rrf_fusion [⟨1, some 1⟩] [] 1).1 ⟨1, 1, 1 / 61, .vector⟩
      (by with_unfolding_all decide),
   (hybrid_search_rrf_fusion [⟨1, some 1⟩] [] 1).2.2⟩

end ThinkOS
